import Mathlib

/-!
Shallow embedding of the breadth-first minutes crawler
(`src/crawler.py` and the package variant `src/crawler/crawler.py`)
together with proofs of the specification's claims about it.

Modelling conventions:
* Python byte strings are modelled as Lean `String`s; Python truthiness of a
  possibly-absent string (`None` / `""` are falsy) is made explicit.
* External collaborators (the HTTP session, BeautifulSoup, pdfminer,
  `urllib.parse.urljoin`) are fields of an `Env` record; the repository's own
  functions are translated directly.
* A call into a pluggable filter that may raise an exception is modelled as a
  function returning `Except Unit Bool`; the crawler's `try/except` blocks
  become `match` on that result.
-/

namespace Crawler

/-- Strip leading and trailing whitespace from a character list, the
embedding of Python `str.strip()` (restricted to the ASCII whitespace Lean's
`Char.isWhitespace` knows; the URLs and texts considered here use no other
whitespace). -/
def stripChars (cs : List Char) : List Char :=
  ((cs.dropWhile Char.isWhitespace).reverse.dropWhile Char.isWhitespace).reverse

/-- Python `str.strip()`. -/
def pyStrip (s : String) : String := ⟨stripChars s.data⟩

/-- ASCII lower-casing of a string, the embedding of Python `str.lower()`
(exact on ASCII; the CJK keywords involved here have no case). -/
def lowerStr (s : String) : String := ⟨s.data.map Char.toLower⟩

/-- Embedding of `urllib.parse.urldefrag`: split the URL at its first `#`,
returning the part before it and the fragment after it. -/
def urldefrag (s : String) : String × String :=
  match s.data.dropWhile (fun c => c ≠ '#') with
  | [] => (s, "")
  | _ :: frag => (⟨s.data.takeWhile (fun c => c ≠ '#')⟩, ⟨frag⟩)

/-- Embedding of `normalize_url` (crawler.py line 83): strip surrounding
whitespace, then drop the fragment. -/
def normalize_url (url : String) : String :=
  (urldefrag (pyStrip url)).1

/-- Characters allowed in a URL scheme by `urllib.parse` (`scheme_chars`). -/
def isSchemeChar (c : Char) : Bool :=
  c.isAlpha || c.isDigit || c = '+' || c = '-' || c = '.'

/-- Embedding of `urllib.parse.urlparse(url).scheme`: the part before the
first `:` when it is nonempty, starts with an ASCII letter and consists of
scheme characters only; lower-cased, as `urlparse` returns it. -/
def urlscheme (url : String) : String :=
  let pre := url.data.takeWhile (fun c => c ≠ ':')
  if !pre.isEmpty && pre.length < url.data.length &&
      (pre.headD 'A').isAlpha && pre.all isSchemeChar then
    lowerStr ⟨pre⟩
  else
    ""

/-- Embedding of `is_http_url` (crawler.py line 89). -/
def is_http_url (url : String) : Bool :=
  let scheme := lowerStr (urlscheme url)
  scheme = "http" || scheme = "https"

/-- Substring test, the embedding of Python's `k in t`. -/
def containsSub (t k : String) : Bool :=
  t.data.tails.any (fun suffix => k.data.isPrefixOf suffix)

/-- Word characters for the `\b` boundaries of the regexes in
`rule_based_is_minutes_like`: ASCII alphanumerics, underscore, and (as an
approximation of Unicode `\w` that is exact for the CJK letters occurring in
`MINUTES_KEYWORDS`) every non-ASCII character. -/
def isWordChar (c : Char) : Bool :=
  c.isAlphanum || c = '_' || c.val ≥ 0x80

/-- Separator class (slash or dash) of the date regex. -/
def isDateSep (c : Char) : Bool := c = '/' || c = '-'

/-- Consume one or two digits followed by a date separator, returning the remainder. -/
def consumeMidGroup : List Char → Option (List Char)
  | e1 :: s :: rest =>
    if e1.isDigit then
      if isDateSep s then some rest
      else if s.isDigit then
        match rest with
        | s2 :: rest2 => if isDateSep s2 then some rest2 else none
        | [] => none
      else none
    else none
  | _ => none

/-- Match of the date regex (four digits, separator, one or two digits,
separator, one or two digits) anchored at the head of the character list. -/
def dateMatchAt : List Char → Bool
  | d1 :: d2 :: d3 :: d4 :: s1 :: rest =>
    d1.isDigit && d2.isDigit && d3.isDigit && d4.isDigit && isDateSep s1 &&
      (match consumeMidGroup rest with
       | some (f1 :: _) => f1.isDigit
       | _ => false)
  | _ => false

/-- Search for the date regex anywhere in the string (`re.search`). -/
def containsDateSignal (t : String) : Bool :=
  t.data.tails.any dateMatchAt

/-- No word character at the head: the trailing `\b` of a regex whose last
matched character is a word character. -/
def noWordAhead : List Char → Bool
  | [] => true
  | c :: _ => !isWordChar c

/-- Match of `\d{1,2}:\d{2}\b` anchored at the head of the list (the leading
`\b` is checked by the scanner). -/
def timeMatchAt (cs : List Char) : Bool :=
  (match cs with
   | d1 :: d2 :: c :: m1 :: m2 :: rest =>
     d1.isDigit && d2.isDigit && c = ':' && m1.isDigit && m2.isDigit &&
       noWordAhead rest
   | _ => false) ||
  (match cs with
   | d1 :: c :: m1 :: m2 :: rest =>
     d1.isDigit && c = ':' && m1.isDigit && m2.isDigit && noWordAhead rest
   | _ => false)

/-- Scanner for `\b(\d{1,2}:\d{2})\b`: at each position, a word boundary must
precede the match (the previous character, when any, is not a word char). -/
def scanTime : Option Char → List Char → Bool
  | _, [] => false
  | prev, c :: cs =>
    ((match prev with | none => true | some p => !isWordChar p) &&
      timeMatchAt (c :: cs)) ||
    scanTime (some c) cs

/-- Search for the time regex `\b(\d{1,2}:\d{2})\b` anywhere in the string. -/
def containsTimeSignal (t : String) : Bool :=
  scanTime none t.data

/-- Match of `(agenda|議題)\b` anchored at the head of the list. -/
def agendaMatchAt (cs : List Char) : Bool :=
  (List.isPrefixOf "agenda".data cs && noWordAhead (cs.drop 6)) ||
  (List.isPrefixOf "議題".data cs && noWordAhead (cs.drop 2))

/-- Scanner for `\b(agenda|議題)\b`. -/
def scanAgenda : Option Char → List Char → Bool
  | _, [] => false
  | prev, c :: cs =>
    ((match prev with | none => true | some p => !isWordChar p) &&
      agendaMatchAt (c :: cs)) ||
    scanAgenda (some c) cs

/-- Search for the agenda regex `\b(agenda|議題)\b` anywhere in the string. -/
def containsAgendaSignal (t : String) : Bool :=
  scanAgenda none t.data

/-- The curated keyword tuple `MINUTES_KEYWORDS` of crawler.py. -/
def MINUTES_KEYWORDS : List String :=
  ["議事録", "会議録", "会議", "議題", "議事次第", "出席者", "配布資料",
   "決定事項", "アジェンダ",
   "meeting minutes", "minutes", "agenda", "attendees", "action items",
   "decisions"]

/-- Embedding of `rule_based_is_minutes_like` (crawler.py lines 177-190):
lower-case the first 200000 characters, require at least one keyword, then
count the three structural signals and require at least one of them. -/
def rule_based_is_minutes_like (text : String) (url : String) : Bool :=
  let t := lowerStr ⟨text.data.take 200000⟩
  if !(MINUTES_KEYWORDS.map lowerStr).any (fun k => containsSub t k) then
    false
  else
    let signals :=
      (if containsDateSignal t then 1 else 0) +
      (if containsTimeSignal t then 1 else 0) +
      (if containsAgendaSignal t then 1 else 0)
    decide (signals ≥ 1)

/-- Spec-side restatement used to check C8: the text (after the same
truncation and lowering) contains at least one curated keyword. -/
def hasMinutesKeyword (t : String) : Bool :=
  (MINUTES_KEYWORDS.map lowerStr).any (fun k => containsSub t k)

/-- Spec-side restatement used to check C8: at least one structural
corroborating signal (date pattern, time pattern, explicit agenda mention). -/
def hasStructuralSignal (t : String) : Bool :=
  containsDateSignal t || containsTimeSignal t || containsAgendaSignal t

/-- Embedding of `llm_is_minutes_like` (crawler.py lines 205-211): when the
`ENABLE_LLM_FILTER` environment value is not `"1"` it defers; the current
placeholder body also defers. -/
def llm_is_minutes_like (enableLlmFilter : String) (_text : String)
    (_url : String) : Option Bool :=
  if enableLlmFilter ≠ "1" then none
  else none

/-- Truthiness of an optional string in Python: `None` and `""` are falsy. -/
def optTruthy : Option String → Bool
  | none => false
  | some s => s ≠ ""

/-- Result of one `session.get`: either a `requests.RequestException`
(carrying the status code of `e.response` when one exists) or a response. -/
inductive FetchResult where
  | failure (status : Option Int)
  | success (status : Int) (contentTypeHeader : String) (body : String)
      (text : Option String) (lossy : String)
  deriving Repr

/-- External collaborators of the crawler.  `fetch url` is one `session.get`;
for a successful response, `contentTypeHeader` is the raw `Content-Type`
header (absent modelled as `""`), `body` is `resp.content`, `text` is
`resp.text` (`none` models the decode raising), and `lossy` is the fallback
`body.decode("utf-8", errors="ignore")`.  `anchors html` lists the
`(href, get_text(strip=True))` pairs BeautifulSoup finds; `urljoin` is
`urllib.parse.urljoin`; `htmlToText` is the soup text rendering done by
`html_to_text`; `guessTitle` is the soup title lookup done by
`guess_title_from_html`; `pdfExtract` is pdfminer's `extract_text` with the
`or None` applied; `enableLlmFilter` is the `ENABLE_LLM_FILTER` value. -/
structure Env where
  fetch : String → FetchResult
  anchors : String → List (String × String)
  urljoin : String → String → String
  htmlToText : String → String
  guessTitle : String → Option String
  pdfExtract : String → Option String
  enableLlmFilter : String

/-- Embedding of `extract_text_from_pdf_bytes` (crawler.py lines 193-202):
empty data yields no text, otherwise the extractor's optional result. -/
def extract_text_from_pdf_bytes (env : Env) (data : String) : Option String :=
  if data = "" then none else env.pdfExtract data

/-- Embedding of `should_save` (crawler.py lines 214-236).  The decision text
is the soup rendering for truthy HTML, the extracted text for truthy PDF
bytes, and otherwise (or when that text is falsy) the lower-cased URL. -/
def should_save (env : Env) (content_type : Option String) (url : String)
    (html_text : Option String) (pdf_bytes : Option String) : Bool :=
  let ct := match content_type with
    | some c => lowerStr c
    | none => ""
  let textOpt : Option String :=
    if "text/html".data.isPrefixOf ct.data && optTruthy html_text then
      some (env.htmlToText (html_text.getD ""))
    else if (ct = "application/pdf" || ct = "application/x-pdf" ||
        ct = "application/acrobat") && optTruthy pdf_bytes then
      extract_text_from_pdf_bytes env (pdf_bytes.getD "")
    else none
  let text : String :=
    match textOpt with
    | some t => if t = "" then lowerStr url else t
    | none => lowerStr url
  if rule_based_is_minutes_like text url then true
  else
    match llm_is_minutes_like env.enableLlmFilter text url with
    | some b => b
    | none => false

/-- A persisted row of the `crawled_pages` table. -/
structure Record where
  url : String
  referrer_anchor_text : Option String
  status_code : Option Int
  content_type : Option String
  content : Option String
  html_title : Option String
  depth : Nat
  deriving Repr, DecidableEq

/-- The table, in insertion order. -/
abbrev Store := List Record

/-- Embedding of `url_exists` (crawler.py lines 94-97). -/
def url_exists (store : Store) (url : String) : Bool :=
  store.any (fun r => r.url = url)

/-- Embedding of `save_page` (crawler.py lines 100-131): insert-or-ignore on
the unique url key, returning whether a row was created together with the
resulting table. -/
def save_page (store : Store) (r : Record) : Bool × Store :=
  if store.any (fun row => row.url = r.url) then (false, store)
  else (true, store ++ [r])

/-- Embedding of the `QueueItem` dataclass. -/
structure QueueItem where
  url : String
  depth : Nat
  anchor_text : Option String
  deriving Repr, DecidableEq

/-- Embedding of `extract_links` (crawler.py lines 134-146): for each anchor,
strip the href, resolve it against the page URL, normalize, drop non-http(s)
results, and carry the anchor's visible text (empty string when none). -/
def extract_links (env : Env) (base_url : String) (html : String) :
    List (String × String) :=
  (env.anchors html).filterMap (fun a =>
    let href := pyStrip a.1
    let abs_url := normalize_url (env.urljoin base_url href)
    if is_http_url abs_url then
      let text : Option String := if a.2 = "" then none else some a.2
      some (abs_url, text.getD "")
    else none)

/-- Relevance decision for one item as the crawl loop sees it: the arguments
of crawler.py line 317 in, a verdict out, where `.error` models the filter
raising an exception (caught by lines 318-319).  `defaultSaveFilter` below is
the repository's own `should_save`. -/
abbrev SaveFilter :=
  Option String → String → Option String → Option String → Except Unit Bool

/-- The filter the flat crawler actually calls: `should_save`, which never
raises. -/
def defaultSaveFilter (env : Env) : SaveFilter :=
  fun content_type url html_text pdf_bytes =>
    .ok (should_save env content_type url html_text pdf_bytes)

/-- Embedding of the Content-Type header normalization of crawler.py line
283: token before `;`, trimmed, `or None`. -/
def parse_content_type (header : String) : Option String :=
  let c := pyStrip ⟨header.data.takeWhile (fun ch => ch ≠ ';')⟩
  if c = "" then none else some c

/-- Is the (already parsed) content type an HTML one (lines 287, 317)? -/
def ctIsHtml : Option String → Bool
  | some c => "text/html".data.isPrefixOf (lowerStr c).data
  | none => false

/-- Is the (already parsed) content type a PDF one (lines 302, 317)? -/
def ctIsPdf : Option String → Bool
  | some c =>
    let l := lowerStr c
    l = "application/pdf" || l = "application/x-pdf" || l = "application/acrobat"
  | none => false

/-- What one iteration computed before the filter/save/enqueue phase:
`status_code`, `content_type`, `body_bytes`, `html_title`, `links` as of
crawler.py lines 274-312, plus `respText` (`resp.text`, `none` when the fetch
failed or the decode raises). -/
structure ItemFetch where
  status_code : Option Int
  content_type : Option String
  body_bytes : Option String
  html_title : Option String
  links : List (String × String)
  respText : Option String
  deriving Repr

/-- Embedding of the fetch-and-classify phase (crawler.py lines 274-312) for
the already-normalized `url` of an item at depth `depth`. -/
def processFetch (env : Env) (max_depth : Nat) (depth : Nat) (url : String) :
    ItemFetch :=
  match env.fetch url with
  | .failure s =>
    { status_code := s, content_type := none, body_bytes := none,
      html_title := none, links := [], respText := none }
  | .success status header body text lossy =>
    let content_type := parse_content_type header
    let base : ItemFetch :=
      { status_code := some status, content_type := content_type,
        body_bytes := some body, html_title := none, links := [],
        respText := text }
    if ctIsHtml content_type && body ≠ "" then
      let html_text := text.getD lossy
      if html_text ≠ "" then
        { base with
            html_title := env.guessTitle html_text,
            links := if depth < max_depth then extract_links env url html_text
              else [] }
      else base
    else base

/-- The `keep` decision of crawler.py lines 314-319: the filter call inside
`try`, whose HTML-text argument is `resp.text` (so a raising `resp.text` also
yields `False`), with any exception mapped to `False`. -/
def keepDecision (filter : SaveFilter) (url : String) (f : ItemFetch) : Bool :=
  let pdfArg : Option String :=
    if ctIsPdf f.content_type then f.body_bytes else none
  if ctIsHtml f.content_type then
    match f.respText with
    | none => false
    | some t =>
      match filter f.content_type url (some t) pdfArg with
      | .ok b => b
      | .error _ => false
  else
    match filter f.content_type url none pdfArg with
    | .ok b => b
    | .error _ => false

/-- The mutable state of the `while q:` loop of `crawl`, plus three
observation-only traces: the URLs passed to `session.get` in order
(`fetched`), every popped item in order (`dequeued`), and every item ever
placed on the frontier (`enqueuedLog`, seeded with the start item). -/
structure CrawlState where
  q : List QueueItem
  seen : List String
  savedCount : Nat
  store : Store
  fetched : List String
  dequeued : List QueueItem
  enqueuedLog : List QueueItem
  deriving Repr

/-- Why the loop stopped. -/
inductive TermReason where
  | emptyFrontier
  | quota
  | fuelOut
  deriving Repr, DecidableEq

/-- Outcome of one loop iteration: either the loop stops (empty frontier was
already handled outside; here `stop` is the `break` on quota) or it
continues with a new state. -/
inductive StepOut where
  | stop (st : CrawlState) (reason : TermReason)
  | next (st : CrawlState)
  deriving Repr

/-- The state an iteration outcome carries. -/
def StepOut.state : StepOut → CrawlState
  | .stop st _ => st
  | .next st => st

/-- The children enqueued from `links` (crawler.py lines 342-344): each link
not in the in-run visited set becomes an item at `depth + 1`, with empty
anchor text carried as `None`. -/
def enqueueChildren (seen : List String) (depth : Nat)
    (links : List (String × String)) : List QueueItem :=
  links.filterMap (fun l =>
    if seen.contains l.1 then none
    else some ⟨l.1, depth + 1, if l.2 = "" then none else some l.2⟩)

/-- The save phase of one iteration (crawler.py lines 321-336 and the
identical crawler/crawler.py lines 265-283): when the verdict `keep` is
positive, insert-or-ignore `rec`, and count the save only when a row was
actually created; the returned flag is the quota `break` condition. -/
def savePhase (max_downloads : Option Nat) (keep : Bool) (rec : Record)
    (st : CrawlState) : CrawlState × Bool :=
  let saved := if keep then save_page st.store rec else (false, st.store)
  let st' : CrawlState :=
    { st with store := saved.2,
              savedCount := if saved.1 then st.savedCount + 1
                else st.savedCount }
  let quotaHit :=
    saved.1 && (match max_downloads with
      | some n => decide (st'.savedCount ≥ n)
      | none => false)
  (st', quotaHit)

/-- The enqueue phase of one iteration (crawler.py lines 340-344 and
crawler/crawler.py lines 285-289). -/
def enqueuePhase (max_depth : Nat) (depth : Nat)
    (links : List (String × String)) (st : CrawlState) : CrawlState :=
  if !links.isEmpty && depth < max_depth then
    let children := enqueueChildren st.seen depth links
    { st with q := st.q ++ children,
              enqueuedLog := st.enqueuedLog ++ children }
  else st

/-- One iteration of the `while q:` loop of `crawl` (crawler.py lines
262-344), for a state whose frontier is known to be nonempty (`item` is the
popped head, `qrest` the remainder). -/
def crawlStep (env : Env) (filter : SaveFilter) (max_depth : Nat)
    (max_downloads : Option Nat) (item : QueueItem) (qrest : List QueueItem)
    (st : CrawlState) : StepOut :=
  let st0 : CrawlState :=
    { st with q := qrest, dequeued := st.dequeued ++ [item] }
  let url := normalize_url item.url
  if st0.seen.contains url then .next st0
  else
    let st1 : CrawlState := { st0 with seen := url :: st0.seen }
    if url_exists st1.store url then .next st1
    else
      let st2 : CrawlState := { st1 with fetched := st1.fetched ++ [url] }
      let f := processFetch env max_depth item.depth url
      let keep := keepDecision filter url f
      let p := savePhase max_downloads keep
        ⟨url, item.anchor_text, f.status_code, f.content_type, f.body_bytes,
         f.html_title, item.depth⟩ st2
      if p.2 then .stop p.1 .quota
      else .next (enqueuePhase max_depth item.depth f.links p.1)

/-- The fuel-indexed `while q:` loop of `crawl`. -/
def crawlLoop (env : Env) (filter : SaveFilter) (max_depth : Nat)
    (max_downloads : Option Nat) : Nat → CrawlState → CrawlState × TermReason
  | 0, st => (st, .fuelOut)
  | fuel + 1, st =>
    match st.q with
    | [] => (st, .emptyFrontier)
    | item :: qrest =>
      match crawlStep env filter max_depth max_downloads item qrest st with
      | .stop st' r => (st', r)
      | .next st' => crawlLoop env filter max_depth max_downloads fuel st'

/-- Embedding of `crawl` (crawler.py lines 239-349): normalize the start URL,
seed the frontier with it at depth 0 and no anchor text, start from an
initial table `initialStore`, and run the loop. -/
def crawl (env : Env) (filter : SaveFilter) (start_url : String)
    (max_depth : Nat) (max_downloads : Option Nat) (initialStore : Store)
    (fuel : Nat) : CrawlState × TermReason :=
  let s := normalize_url start_url
  crawlLoop env filter max_depth max_downloads fuel
    { q := [⟨s, 0, none⟩], seen := [], savedCount := 0, store := initialStore,
      fetched := [], dequeued := [], enqueuedLog := [⟨s, 0, none⟩] }

/-- Embedding of `anchor_is_minutes_like` (crawler/minutes_filter.py):
strip and lower-case the anchor text; empty text never matches; otherwise
match any curated keyword. -/
def anchor_is_minutes_like (anchor_text : String) : Bool :=
  let t := lowerStr (pyStrip anchor_text)
  if t = "" then false
  else (MINUTES_KEYWORDS.map lowerStr).any (fun k => containsSub t k)

/-- A pluggable `BaseSaveFilter.should_save` as the package-variant crawl
calls it: arguments `(url, content_type, text, raw)`, verdict out, `.error`
modelling a raised exception. -/
abbrev Filter2 :=
  String → Option String → String → Option String → Except Unit Bool

/-- The default filter of the package variant, `MinutesFilter.should_save`
(crawler/minutes_filter.py): the `text` argument is interpreted as anchor
text; the LLM check defers unless enabled, and its placeholder defers. -/
def minutesFilter (enableLlmFilter : String) : Filter2 :=
  fun url _content_type text _raw =>
    .ok (if anchor_is_minutes_like text then true
      else
        match llm_is_minutes_like enableLlmFilter text url with
        | some b => b
        | none => false)

/-- The anchor-text pre-filter of the package variant (crawler/crawler.py
lines 209-222): applied only to non-root items, it decides from the anchor
text whether to download at all; an exception inside the filter fails
closed. -/
def shouldFetch2 (filter : Filter2) (item : QueueItem) (url : String) :
    Bool :=
  if 0 < item.depth then
    match filter url none (item.anchor_text.getD "") none with
    | .ok b => b
    | .error _ => false
  else true

/-- One iteration of the `while q:` loop of the package variant
(crawler/crawler.py lines 197-289), continued: same dequeue, dedup and
existence checks as the flat variant; then the anchor-text pre-filter; then
the identical fetch-and-classify phase; then the unconditional save of
non-root items, the quota `break` and the child enqueueing. -/
def crawl2Step (env : Env) (filter : Filter2) (max_depth : Nat)
    (max_downloads : Option Nat) (item : QueueItem) (qrest : List QueueItem)
    (st : CrawlState) : StepOut :=
  let st0 : CrawlState :=
    { st with q := qrest, dequeued := st.dequeued ++ [item] }
  let url := normalize_url item.url
  if st0.seen.contains url then .next st0
  else
    let st1 : CrawlState := { st0 with seen := url :: st0.seen }
    if url_exists st1.store url then .next st1
    else
      if !shouldFetch2 filter item url then .next st1
      else
        let st2 : CrawlState := { st1 with fetched := st1.fetched ++ [url] }
        let f := processFetch env max_depth item.depth url
        let p := savePhase max_downloads (decide (0 < item.depth))
          ⟨url, item.anchor_text, f.status_code, f.content_type, f.body_bytes,
           f.html_title, item.depth⟩ st2
        if p.2 then .stop p.1 .quota
        else .next (enqueuePhase max_depth item.depth f.links p.1)

/-- The fuel-indexed loop of the package variant. -/
def crawl2Loop (env : Env) (filter : Filter2) (max_depth : Nat)
    (max_downloads : Option Nat) : Nat → CrawlState → CrawlState × TermReason
  | 0, st => (st, .fuelOut)
  | fuel + 1, st =>
    match st.q with
    | [] => (st, .emptyFrontier)
    | item :: qrest =>
      match crawl2Step env filter max_depth max_downloads item qrest st with
      | .stop st' r => (st', r)
      | .next st' => crawl2Loop env filter max_depth max_downloads fuel st'

/-- Embedding of `crawl` of the package variant (crawler/crawler.py lines
173-294). -/
def crawl2 (env : Env) (filter : Filter2) (start_url : String)
    (max_depth : Nat) (max_downloads : Option Nat) (initialStore : Store)
    (fuel : Nat) : CrawlState × TermReason :=
  let s := normalize_url start_url
  crawl2Loop env filter max_depth max_downloads fuel
    { q := [⟨s, 0, none⟩], seen := [], savedCount := 0, store := initialStore,
      fetched := [], dequeued := [], enqueuedLog := [⟨s, 0, none⟩] }

/-- A relevance filter whose evaluation raises on every input. -/
def raisingFilter : SaveFilter := fun _ _ _ _ => .error ()

/-- A pluggable package-variant filter that raises on every input. -/
def raisingFilter2 : Filter2 := fun _ _ _ _ => .error ()

/-- A small deterministic web for concrete runs: each listed page is served
as HTML whose body string is its own URL, with the given anchors and visible
text; every other URL fails at the transport level. -/
def mkEnv (pages : List (String × List (String × String) × String)) : Env where
  fetch u := match pages.find? (fun p => p.1 = u) with
    | some _ => .success 200 "text/html" u (some u) u
    | none => .failure none
  anchors h := match pages.find? (fun p => p.1 = h) with
    | some p => p.2.1
    | none => []
  urljoin _ u := u
  htmlToText h := match pages.find? (fun p => p.1 = h) with
    | some p => p.2.2
    | none => ""
  guessTitle _ := none
  pdfExtract _ := none
  enableLlmFilter := "0"

/-- A five-candidate web for the quota scenario: the top page links five
minutes-like pages and one irrelevant page. -/
def quotaEnv : Env := mkEnv
  [("http://a", [("http://m1", "minutes 1"), ("http://m2", "minutes 2"),
                 ("http://m3", "minutes 3"), ("http://m4", "minutes 4"),
                 ("http://m5", "minutes 5"), ("http://b", "")], "top"),
   ("http://m1", [], "minutes 2024-01-02"),
   ("http://m2", [], "minutes 2024-01-02"),
   ("http://m3", [], "minutes 2024-01-02"),
   ("http://m4", [], "minutes 2024-01-02"),
   ("http://m5", [], "minutes 2024-01-02"),
   ("http://b", [], "plain page")]

/-- A web whose top page links the same URL twice under different anchor
texts. -/
def dupEnv : Env := mkEnv
  [("http://a", [("http://d", "x"), ("http://d", "y")], "top"),
   ("http://d", [], "plain page")]

/-- A web whose top page links one URL that fails at the transport level but
whose URL string itself looks minutes-like, and one ordinary page. -/
def failUrlEnv : Env := mkEnv
  [("http://a", [("http://minutes-2024-1-2.example", "x"), ("http://b", "y")],
    "top"),
   ("http://b", [], "other page")]

/-- A one-item state for exercising a single loop iteration directly. -/
def oneItemState (it : QueueItem) : CrawlState :=
  { q := [it], seen := [], savedCount := 0, store := [], fetched := [],
    dequeued := [], enqueuedLog := [it] }

/-- A state whose visited set already holds a URL, for exercising the
dequeue-time skip. -/
def seenState (it : QueueItem) (seen : List String) : CrawlState :=
  { q := [it], seen := seen, savedCount := 0, store := [], fetched := [],
    dequeued := [], enqueuedLog := [it] }

/-- A sample record for exercising the persistence gateway. -/
def c2rec1 : Record :=
  ⟨"http://x", none, some 200, some "text/html", some "b", none, 0⟩

/-- A second sample record with the same url key but different fields. -/
def c2rec2 : Record := ⟨"http://x", some "y", some 404, none, none, none, 3⟩

/-- The run invariant behind first-anchor-wins: every record beyond the
initial table is explained by the first dequeued item for its URL and never
carries an empty-string anchor; every dequeued item's URL is in the visited
set; no frontier item carries an empty-string anchor. -/
def AnchorInv (init : Store) (st : CrawlState) : Prop :=
  (∀ r ∈ st.store, r ∈ init ∨
    ((∃ it, st.dequeued.find? (fun i => normalize_url i.url == r.url) =
        some it ∧
      r.referrer_anchor_text = it.anchor_text ∧ r.depth = it.depth) ∧
     r.referrer_anchor_text ≠ some "")) ∧
  (∀ it ∈ st.dequeued, st.seen.contains (normalize_url it.url) = true) ∧
  (∀ it ∈ st.q, it.anchor_text ≠ some "")

/-- Bool membership test on the visited set agrees with list membership. -/
theorem contains_iff (l : List String) (a : String) :
    l.contains a = true ↔ a ∈ l := by
  simp [List.contains, List.elem_iff]

/-- A row of the table makes its key exist. -/
theorem mem_url_exists (s : Store) (r : Record) (hr : r ∈ s) :
    url_exists s r.url = true := by
  simp only [url_exists, List.any_eq_true, decide_eq_true_eq]
  exact ⟨r, hr, rfl⟩

/-- Existence over a concatenated table splits. -/
theorem url_exists_append (s t : Store) (u : String) :
    url_exists (s ++ t) u = (url_exists s u || url_exists t u) := by
  simp [url_exists, List.any_append]

/-- A found element stays found when the list is extended on the right. -/
theorem find?_append_some {α : Type} (p : α → Bool) (l₁ l₂ : List α) (a : α)
    (h : l₁.find? p = some a) : (l₁ ++ l₂).find? p = some a := by
  induction l₁ with
  | nil => simp [List.find?] at h
  | cons x xs ih =>
    rw [List.cons_append, List.find?]
    rw [List.find?] at h
    cases hx : p x with
    | true => simp only [hx] at h ⊢; exact h
    | false => simp only [hx] at h ⊢; exact ih h

/-- Search in an extension starts over when the first part has no match. -/
theorem find?_append_none {α : Type} (p : α → Bool) (l₁ l₂ : List α)
    (h : l₁.find? p = none) : (l₁ ++ l₂).find? p = l₂.find? p := by
  induction l₁ with
  | nil => simp
  | cons x xs ih =>
    rw [List.find?] at h
    cases hx : p x with
    | true => simp [hx] at h
    | false =>
      simp only [hx] at h
      rw [List.cons_append, List.find?, hx]
      exact ih h

/-- The save phase never touches the frontier. -/
theorem savePhase_q (m : Option Nat) (k : Bool) (rec : Record)
    (st : CrawlState) : (savePhase m k rec st).1.q = st.q := rfl

/-- The save phase never touches the visited set. -/
theorem savePhase_seen (m : Option Nat) (k : Bool) (rec : Record)
    (st : CrawlState) : (savePhase m k rec st).1.seen = st.seen := rfl

/-- The save phase never touches the fetch trace. -/
theorem savePhase_fetched (m : Option Nat) (k : Bool) (rec : Record)
    (st : CrawlState) : (savePhase m k rec st).1.fetched = st.fetched := rfl

/-- The save phase never touches the dequeue trace. -/
theorem savePhase_dequeued (m : Option Nat) (k : Bool) (rec : Record)
    (st : CrawlState) : (savePhase m k rec st).1.dequeued = st.dequeued := rfl

/-- The save phase never touches the enqueue log. -/
theorem savePhase_log (m : Option Nat) (k : Bool) (rec : Record)
    (st : CrawlState) : (savePhase m k rec st).1.enqueuedLog = st.enqueuedLog :=
  rfl

/-- The save phase either leaves the table alone (and cannot hit the quota),
or — only on a positive verdict for a key not yet present — appends exactly
the one record, counts it, and hits the quota exactly when the new count
reaches a configured bound. -/
theorem savePhase_cases (m : Option Nat) (k : Bool) (rec : Record)
    (st : CrawlState) :
    ((savePhase m k rec st).1.store = st.store ∧
     (savePhase m k rec st).1.savedCount = st.savedCount ∧
     (savePhase m k rec st).2 = false) ∨
    (k = true ∧ url_exists st.store rec.url = false ∧
     (savePhase m k rec st).1.store = st.store ++ [rec] ∧
     (savePhase m k rec st).1.savedCount = st.savedCount + 1 ∧
     ((savePhase m k rec st).2 = true ↔
       ∃ n, m = some n ∧ n ≤ st.savedCount + 1)) := by
  unfold savePhase save_page url_exists
  cases k with
  | false => left; simp
  | true =>
    by_cases hex : st.store.any (fun row => row.url = rec.url) = true
    · left; simp [hex]
    · right
      refine ⟨rfl, by simpa using hex, by simp [hex], by simp [hex], ?_⟩
      cases m with
      | none => simp [hex]
      | some n => simp [hex]

/-- The enqueue phase appends some suffix of children to the frontier and the
log, touches nothing else, and appends a nonempty suffix only below the depth
bound. -/
theorem enqueuePhase_spec (maxd d : Nat) (links : List (String × String))
    (st : CrawlState) :
    ∃ cs, (enqueuePhase maxd d links st).q = st.q ++ cs ∧
      (enqueuePhase maxd d links st).enqueuedLog = st.enqueuedLog ++ cs ∧
      (enqueuePhase maxd d links st).seen = st.seen ∧
      (enqueuePhase maxd d links st).store = st.store ∧
      (enqueuePhase maxd d links st).savedCount = st.savedCount ∧
      (enqueuePhase maxd d links st).fetched = st.fetched ∧
      (enqueuePhase maxd d links st).dequeued = st.dequeued ∧
      (cs = [] ∨ (d < maxd ∧ cs = enqueueChildren st.seen d links)) := by
  unfold enqueuePhase
  split
  · rename_i hc
    simp only [Bool.and_eq_true, decide_eq_true_eq] at hc
    exact ⟨enqueueChildren st.seen d links, rfl, rfl, rfl, rfl, rfl, rfl, rfl,
      Or.inr ⟨hc.2, rfl⟩⟩
  · exact ⟨[], by simp, by simp, rfl, rfl, rfl, rfl, rfl, Or.inl rfl⟩

/-- With no links the enqueue phase is the identity. -/
theorem enqueuePhase_nil (maxd d : Nat) (st : CrawlState) :
    enqueuePhase maxd d [] st = st := by
  unfold enqueuePhase
  simp

/-- Every child placed on the frontier sits one level below its parent,
carries a URL that was not in the visited set, carries no empty-string anchor
text, and stems from one of the extracted links. -/
theorem enqueueChildren_mem (seen : List String) (d : Nat)
    (links : List (String × String)) :
    ∀ it ∈ enqueueChildren seen d links, it.depth = d + 1 ∧
      seen.contains it.url = false ∧ it.anchor_text ≠ some "" ∧
      ∃ l ∈ links, it.url = l.1 := by
  intro it hit
  simp only [enqueueChildren, List.mem_filterMap] at hit
  rcases hit with ⟨l, hl, hsome⟩
  split at hsome
  · exact absurd hsome (by simp)
  · rename_i hc
    cases hsome
    refine ⟨rfl, by simpa using hc, ?_, ⟨l, hl, rfl⟩⟩
    split
    · simp
    · rename_i hne
      simpa using hne

/-- Every link the extractor emits has an http or https scheme. -/
theorem extract_links_http (env : Env) (base html : String) :
    ∀ p ∈ extract_links env base html, is_http_url p.1 = true := by
  intro p hp
  simp only [extract_links, List.mem_filterMap] at hp
  rcases hp with ⟨a, _, hsome⟩
  split at hsome
  · rename_i hhttp
    cases hsome
    exact hhttp
  · exact absurd hsome (by simp)

/-- Every link the fetch-and-classify phase reports has an http or https
scheme. -/
theorem processFetch_links (env : Env) (maxd d : Nat) (url : String) :
    ∀ p ∈ (processFetch env maxd d url).links, is_http_url p.1 = true := by
  intro p hp
  unfold processFetch at hp
  split at hp
  · simp at hp
  · dsimp only at hp
    split at hp
    · split at hp
      · dsimp only at hp
        split at hp
        · exact extract_links_http _ _ _ p hp
        · simp at hp
      · simp at hp
    · simp at hp

/-- The optional LLM verdict always defers. -/
theorem llm_none (e t u : String) : llm_is_minutes_like e t u = none := by
  unfold llm_is_minutes_like
  split <;> rfl

/-- A filter that raises always yields a negative keep verdict. -/
theorem keepDecision_raising (url : String) (f : ItemFetch) :
    keepDecision raisingFilter url f = false := by
  unfold keepDecision raisingFilter
  split <;> split <;> first | rfl | (cases f.respText <;> rfl)

/-- Preservation of an invariant along the flat crawl loop. -/
theorem crawlLoop_inv (env : Env) (filter : SaveFilter) (maxd : Nat)
    (maxdl : Option Nat) (P : CrawlState → Prop)
    (hstep : ∀ item qrest st out, st.q = item :: qrest → P st →
      crawlStep env filter maxd maxdl item qrest st = out → P out.state) :
    ∀ fuel st, P st → P (crawlLoop env filter maxd maxdl fuel st).1 := by
  intro fuel
  induction fuel with
  | zero => intro st h; exact h
  | succ n ih =>
    intro st h
    rw [crawlLoop]
    cases hq : st.q with
    | nil => exact h
    | cons item qrest =>
      dsimp only
      cases hstep' : crawlStep env filter maxd maxdl item qrest st with
      | stop st' r =>
        exact hstep item qrest st _ hq h hstep'
      | next st' =>
        exact ih st' (hstep item qrest st _ hq h hstep')

/-- Preservation of an invariant along the package-variant crawl loop. -/
theorem crawl2Loop_inv (env : Env) (filter : Filter2) (maxd : Nat)
    (maxdl : Option Nat) (P : CrawlState → Prop)
    (hstep : ∀ item qrest st out, st.q = item :: qrest → P st →
      crawl2Step env filter maxd maxdl item qrest st = out → P out.state) :
    ∀ fuel st, P st → P (crawl2Loop env filter maxd maxdl fuel st).1 := by
  intro fuel
  induction fuel with
  | zero => intro st h; exact h
  | succ n ih =>
    intro st h
    rw [crawl2Loop]
    cases hq : st.q with
    | nil => exact h
    | cons item qrest =>
      dsimp only
      cases hstep' : crawl2Step env filter maxd maxdl item qrest st with
      | stop st' r =>
        exact hstep item qrest st _ hq h hstep'
      | next st' =>
        exact ih st' (hstep item qrest st _ hq h hstep')

theorem crawlStep_fetched_inv (env : Env) (filter : SaveFilter) (maxd : Nat)
    (maxdl : Option Nat) (item : QueueItem) (qrest : List QueueItem)
    (st : CrawlState) (out : StepOut)
    (hout : crawlStep env filter maxd maxdl item qrest st = out)
    (h : st.fetched.Nodup ∧ ∀ v ∈ st.fetched, v ∈ st.seen) :
    out.state.fetched.Nodup ∧ ∀ v ∈ out.state.fetched, v ∈ out.state.seen := by
  simp only [crawlStep] at hout
  split at hout
  · subst hout; exact h
  · split at hout
    · subst hout
      exact ⟨h.1, fun v hv => List.mem_cons_of_mem _ (h.2 v hv)⟩
    · rename_i hseen _
      have hnotmem : normalize_url item.url ∉ st.seen := by
        intro hmem
        exact hseen ((contains_iff _ _).mpr hmem)
      have hnd : (st.fetched ++ [normalize_url item.url]).Nodup := by
        rw [List.nodup_append]
        refine ⟨h.1, List.nodup_singleton _, ?_⟩
        intro a ha hb
        simp only [List.mem_singleton] at hb
        exact hnotmem (hb ▸ h.2 a ha)
      have hsub : ∀ v ∈ st.fetched ++ [normalize_url item.url],
          v ∈ normalize_url item.url :: st.seen := by
        intro v hv
        rcases List.mem_append.mp hv with hv | hv
        · exact List.mem_cons_of_mem _ (h.2 v hv)
        · simp only [List.mem_singleton] at hv
          simp [hv]
      split at hout
      · subst hout
        refine ⟨?_, ?_⟩
        · rw [StepOut.state, savePhase_fetched]; exact hnd
        · intro v hv
          rw [StepOut.state, savePhase_fetched] at hv
          rw [StepOut.state, savePhase_seen]
          exact hsub v hv
      · subst hout
        rcases enqueuePhase_spec maxd item.depth _ _ with
          ⟨cs, _, _, hseen', _, _, hfet', _, _⟩
        refine ⟨?_, ?_⟩
        · rw [StepOut.state, hfet', savePhase_fetched]; exact hnd
        · intro v hv
          rw [StepOut.state, hfet', savePhase_fetched] at hv
          rw [StepOut.state, hseen', savePhase_seen]
          exact hsub v hv



theorem savePhase_store_inv (m : Option Nat) (k : Bool) (rec : Record)
    (st2 : CrawlState) (init new : Store)
    (hstore : st2.store = init ++ new)
    (hfresh : ∀ r ∈ new, url_exists init r.url = false)
    (hcount : st2.savedCount = new.length) :
    ∃ fresh, (savePhase m k rec st2).1.store = init ++ fresh ∧
      (∀ r ∈ fresh, url_exists init r.url = false) ∧
      (savePhase m k rec st2).1.savedCount = fresh.length := by
  rcases savePhase_cases m k rec st2 with ⟨hs, hc, _⟩ | ⟨_, hex2, hs, hc, _⟩
  · exact ⟨new, by rw [hs, hstore], hfresh, by rw [hc, hcount]⟩
  · refine ⟨new ++ [rec], ?_, ?_, ?_⟩
    · rw [hs, hstore, List.append_assoc]
    · intro r hr
      rcases List.mem_append.mp hr with hr | hr
      · exact hfresh r hr
      · simp only [List.mem_singleton] at hr
        subst hr
        rw [hstore, url_exists_append] at hex2
        exact (Bool.or_eq_false_iff.mp hex2).1
    · rw [hc, hcount]; simp

theorem crawlStep_store_inv (env : Env) (filter : SaveFilter) (maxd : Nat)
    (maxdl : Option Nat) (item : QueueItem) (qrest : List QueueItem)
    (st : CrawlState) (out : StepOut) (init : Store)
    (hout : crawlStep env filter maxd maxdl item qrest st = out)
    (h : ∃ new, st.store = init ++ new ∧
      (∀ r ∈ new, url_exists init r.url = false) ∧
      st.savedCount = new.length) :
    ∃ new, out.state.store = init ++ new ∧
      (∀ r ∈ new, url_exists init r.url = false) ∧
      out.state.savedCount = new.length := by
  rcases h with ⟨new, hstore, hfresh, hcount⟩
  simp only [crawlStep] at hout
  split at hout
  · subst hout; exact ⟨new, hstore, hfresh, hcount⟩
  · split at hout
    · subst hout; exact ⟨new, hstore, hfresh, hcount⟩
    · split at hout <;> subst hout
      · refine savePhase_store_inv _ _ _ _ init new ?_ ?_ ?_
        · exact hstore
        · exact hfresh
        · exact hcount
      · rw [StepOut.state]
        rcases enqueuePhase_spec maxd item.depth _ _ with
          ⟨cs, _, _, _, hstore', hcount', _, _, _⟩
        rw [hstore', hcount']
        refine savePhase_store_inv _ _ _ _ init new ?_ ?_ ?_
        · exact hstore
        · exact hfresh
        · exact hcount



theorem savePhase_quota (n : Nat) (k : Bool) (rec : Record) (st2 : CrawlState)
    (hlt : st2.savedCount < n) :
    ((savePhase (some n) k rec st2).2 = true →
      (savePhase (some n) k rec st2).1.savedCount = n) ∧
    ((savePhase (some n) k rec st2).2 = false →
      (savePhase (some n) k rec st2).1.savedCount < n) := by
  rcases savePhase_cases (some n) k rec st2 with ⟨_, hc, hq⟩ | ⟨_, _, _, hc, hq⟩
  · constructor
    · intro hcontra; rw [hq] at hcontra; cases hcontra
    · intro _; rw [hc]; exact hlt
  · constructor
    · intro htrue
      rcases hq.mp htrue with ⟨m, hm, hle⟩
      cases hm
      rw [hc]; omega
    · intro hfalse
      rw [hc]
      by_contra hcontra
      have : (savePhase (some n) k rec st2).2 = true :=
        hq.mpr ⟨n, rfl, by omega⟩
      rw [hfalse] at this; cases this

theorem crawlStep_quota (env : Env) (filter : SaveFilter) (maxd : Nat)
    (n : Nat) (item : QueueItem) (qrest : List QueueItem) (st : CrawlState)
    (out : StepOut)
    (hout : crawlStep env filter maxd (some n) item qrest st = out)
    (hlt : st.savedCount < n) :
    (∀ st', out = .next st' → st'.savedCount < n) ∧
    (∀ st' r, out = .stop st' r → st'.savedCount = n ∧ r = .quota) := by
  simp only [crawlStep] at hout
  split at hout
  · subst hout
    exact ⟨fun st' h => by cases h; exact hlt, fun st' r h => by cases h⟩
  · split at hout
    · subst hout
      exact ⟨fun st' h => by cases h; exact hlt, fun st' r h => by cases h⟩
    · split at hout <;> subst hout
      · rename_i hq2
        constructor
        · intro st' h; cases h
        · intro st' r h
          cases h
          exact ⟨(savePhase_quota n _ _ _ hlt).1 hq2, rfl⟩
      · rename_i hq2
        constructor
        · intro st' h
          cases h
          rcases enqueuePhase_spec maxd item.depth _ _ with
            ⟨cs, _, _, _, _, hcount', _, _, _⟩
          rw [hcount']
          exact (savePhase_quota n _ _ _ hlt).2 (by
            cases hq : (savePhase (some n) _ _ _).2
            · rfl
            · exact absurd hq hq2)
        · intro st' r h; cases h



theorem crawlLoop_quota (env : Env) (filter : SaveFilter) (maxd n : Nat) :
    ∀ fuel st, st.savedCount < n →
      (crawlLoop env filter maxd (some n) fuel st).1.savedCount ≤ n ∧
      ((crawlLoop env filter maxd (some n) fuel st).2 = .quota →
        (crawlLoop env filter maxd (some n) fuel st).1.savedCount = n) := by
  intro fuel
  induction fuel with
  | zero =>
    intro st h
    exact ⟨Nat.le_of_lt h, fun hr => by cases hr⟩
  | succ m ih =>
    intro st h
    rw [crawlLoop]
    cases hq : st.q with
    | nil => exact ⟨Nat.le_of_lt h, fun hr => by cases hr⟩
    | cons item qrest =>
      dsimp only
      cases hstep' : crawlStep env filter maxd (some n) item qrest st with
      | stop st' r =>
        have hs := (crawlStep_quota env filter maxd n item qrest st _ hstep' h).2
          st' r rfl
        exact ⟨Nat.le_of_eq hs.1, fun _ => hs.1⟩
      | next st' =>
        exact ih st'
          ((crawlStep_quota env filter maxd n item qrest st _ hstep' h).1 st' rfl)

theorem crawl2Step_depth_inv (env : Env) (filter : Filter2) (maxd : Nat)
    (maxdl : Option Nat) (item : QueueItem) (qrest : List QueueItem)
    (st : CrawlState) (out : StepOut) (hq : st.q = item :: qrest)
    (h : (∀ it ∈ st.q, it.depth ≤ maxd) ∧ ∀ it ∈ st.enqueuedLog, it.depth ≤ maxd)
    (hout : crawl2Step env filter maxd maxdl item qrest st = out) :
    (∀ it ∈ out.state.q, it.depth ≤ maxd) ∧
      ∀ it ∈ out.state.enqueuedLog, it.depth ≤ maxd := by
  have hrest : ∀ it ∈ qrest, it.depth ≤ maxd := by
    intro it hit; exact h.1 it (by rw [hq]; exact List.mem_cons_of_mem _ hit)
  simp only [crawl2Step] at hout
  split at hout
  · subst hout; exact ⟨hrest, h.2⟩
  · split at hout
    · subst hout; exact ⟨hrest, h.2⟩
    · split at hout
      · subst hout; exact ⟨hrest, h.2⟩
      · split at hout <;> subst hout
        · rw [StepOut.state, savePhase_q, savePhase_log]
          exact ⟨hrest, h.2⟩
        · rw [StepOut.state]
          rcases enqueuePhase_spec maxd item.depth _ _ with
            ⟨cs, hq', hlog', _, _, _, _, _, hcs⟩
          rw [hq', hlog', savePhase_q, savePhase_log]
          have hcsd : ∀ it ∈ cs, it.depth ≤ maxd := by
            rcases hcs with rfl | ⟨hd, rfl⟩
            · intro it hit; cases hit
            · intro it hit
              have := (enqueueChildren_mem _ _ _ it hit).1
              omega
          constructor
          · intro it hit
            rcases List.mem_append.mp hit with hit | hit
            · exact hrest it hit
            · exact hcsd it hit
          · intro it hit
            rcases List.mem_append.mp hit with hit | hit
            · exact h.2 it hit
            · exact hcsd it hit



theorem crawlStep_depth_inv (env : Env) (filter : SaveFilter) (maxd : Nat)
    (maxdl : Option Nat) (item : QueueItem) (qrest : List QueueItem)
    (st : CrawlState) (out : StepOut) (hq : st.q = item :: qrest)
    (h : (∀ it ∈ st.q, it.depth ≤ maxd) ∧ ∀ it ∈ st.enqueuedLog, it.depth ≤ maxd)
    (hout : crawlStep env filter maxd maxdl item qrest st = out) :
    (∀ it ∈ out.state.q, it.depth ≤ maxd) ∧
      ∀ it ∈ out.state.enqueuedLog, it.depth ≤ maxd := by
  have hrest : ∀ it ∈ qrest, it.depth ≤ maxd := by
    intro it hit; exact h.1 it (by rw [hq]; exact List.mem_cons_of_mem _ hit)
  simp only [crawlStep] at hout
  split at hout
  · subst hout; exact ⟨hrest, h.2⟩
  · split at hout
    · subst hout; exact ⟨hrest, h.2⟩
    · split at hout <;> subst hout
      · rw [StepOut.state, savePhase_q, savePhase_log]
        exact ⟨hrest, h.2⟩
      · rw [StepOut.state]
        rcases enqueuePhase_spec maxd item.depth _ _ with
          ⟨cs, hq', hlog', _, _, _, _, _, hcs⟩
        rw [hq', hlog', savePhase_q, savePhase_log]
        have hcsd : ∀ it ∈ cs, it.depth ≤ maxd := by
          rcases hcs with rfl | ⟨hd, rfl⟩
          · intro it hit; cases hit
          · intro it hit
            have := (enqueueChildren_mem _ _ _ it hit).1
            omega
        constructor
        · intro it hit
          rcases List.mem_append.mp hit with hit | hit
          · exact hrest it hit
          · exact hcsd it hit
        · intro it hit
          rcases List.mem_append.mp hit with hit | hit
          · exact h.2 it hit
          · exact hcsd it hit

/-- C1: during one run the controller fetches every normalized URL at most
once: the trace of URLs handed to the HTTP session has no duplicates. -/
theorem claim_C1_fetch_at_most_once (env : Env) (filter : SaveFilter)
    (start : String) (maxd : Nat) (maxdl : Option Nat) (init : Store)
    (fuel : Nat) :
    ((crawl env filter start maxd maxdl init fuel).1.fetched).Nodup := by
  unfold crawl
  exact (crawlLoop_inv env filter maxd maxdl
    (fun st => st.fetched.Nodup ∧ ∀ v ∈ st.fetched, v ∈ st.seen)
    (fun item qrest st out _ hP hout =>
      crawlStep_fetched_inv env filter maxd maxdl item qrest st out hout hP)
    fuel _ ⟨List.nodup_nil, by simp⟩).1

/-- C4: no item is ever placed on the frontier of either crawl variant with a
depth exceeding the configured maximum, and every frontier item left at the
end respects the bound as well. -/
theorem claim_C4_depth_bound (env env2 : Env) (f1 : SaveFilter) (f2 : Filter2)
    (start start2 : String) (maxd : Nat) (maxdl maxdl2 : Option Nat)
    (init init2 : Store) (fuel fuel2 : Nat) :
    (∀ it ∈ (crawl env f1 start maxd maxdl init fuel).1.enqueuedLog,
      it.depth ≤ maxd) ∧
    (∀ it ∈ (crawl env f1 start maxd maxdl init fuel).1.q, it.depth ≤ maxd) ∧
    (∀ it ∈ (crawl2 env2 f2 start2 maxd maxdl2 init2 fuel2).1.enqueuedLog,
      it.depth ≤ maxd) ∧
    (∀ it ∈ (crawl2 env2 f2 start2 maxd maxdl2 init2 fuel2).1.q,
      it.depth ≤ maxd) := by
  have h1 := crawlLoop_inv env f1 maxd maxdl
    (fun st => (∀ it ∈ st.q, it.depth ≤ maxd) ∧
      ∀ it ∈ st.enqueuedLog, it.depth ≤ maxd)
    (fun item qrest st out hq hP hout =>
      crawlStep_depth_inv env f1 maxd maxdl item qrest st out hq hP hout)
    fuel
    { q := [⟨normalize_url start, 0, none⟩], seen := [], savedCount := 0,
      store := init, fetched := [], dequeued := [],
      enqueuedLog := [⟨normalize_url start, 0, none⟩] }
    ⟨by simp, by simp⟩
  have h2 := crawl2Loop_inv env2 f2 maxd maxdl2
    (fun st => (∀ it ∈ st.q, it.depth ≤ maxd) ∧
      ∀ it ∈ st.enqueuedLog, it.depth ≤ maxd)
    (fun item qrest st out hq hP hout =>
      crawl2Step_depth_inv env2 f2 maxd maxdl2 item qrest st out hq hP hout)
    fuel2
    { q := [⟨normalize_url start2, 0, none⟩], seen := [], savedCount := 0,
      store := init2, fetched := [], dequeued := [],
      enqueuedLog := [⟨normalize_url start2, 0, none⟩] }
    ⟨by simp, by simp⟩
  exact ⟨h1.2, h1.1, h2.2, h2.1⟩

/-- C4 witness: in the concrete duplicate-link run, the enqueued child sits
within the depth bound. -/
theorem claim_C4_witness :
    (⟨"http://d", 1, some "x"⟩ : QueueItem) ∈
      (crawl dupEnv (defaultSaveFilter dupEnv) "http://a" 1 none [] 10).1.enqueuedLog ∧
    (⟨"http://d", 1, some "x"⟩ : QueueItem).depth ≤ 1 := by
  refine ⟨by decide, ?_⟩
  exact (claim_C4_depth_bound dupEnv dupEnv (defaultSaveFilter dupEnv)
    (minutesFilter "0") "http://a" "http://a" 1 none none [] [] 10 10).1
    ⟨"http://d", 1, some "x"⟩ (by decide)



/-- C2: persistence is insert-or-ignore on the unique url key. -/
theorem claim_C2_idempotent_persistence (store : Store) (r r' : Record)
    (env : Env) (filter : SaveFilter) (start : String) (maxd : Nat)
    (maxdl : Option Nat) (init : Store) (fuel : Nat) :
    ((save_page store r).1 = true ↔ url_exists store r.url = false) ∧
    ((save_page store r).1 = true → (save_page store r).2 = store ++ [r]) ∧
    ((save_page store r).1 = false → (save_page store r).2 = store) ∧
    (url_exists store r.url = false → r'.url = r.url →
      (save_page (save_page store r).2 r').1 = false ∧
      (save_page (save_page store r).2 r').2 = (save_page store r).2 ∧
      ((save_page store r).2).filter (fun row => row.url == r.url) = [r]) ∧
    (∃ new, (crawl env filter start maxd maxdl init fuel).1.store = init ++ new ∧
      ∀ rr ∈ new, url_exists init rr.url = false) := by
  refine ⟨?_, ?_, ?_, ?_, ?_⟩
  · unfold save_page url_exists
    by_cases hex : store.any (fun row => row.url = r.url) = true <;> simp [hex]
  · unfold save_page
    by_cases hex : store.any (fun row => row.url = r.url) = true <;> simp [hex]
  · unfold save_page
    by_cases hex : store.any (fun row => row.url = r.url) = true <;> simp [hex]
  · intro hex hurl
    have hfirst : save_page store r = (true, store ++ [r]) := by
      unfold save_page
      simp only [url_exists] at hex
      simp [hex]
    rw [hfirst]
    have hex2 : url_exists (store ++ [r]) r'.url = true := by
      rw [url_exists_append, hurl]
      simp [url_exists]
    refine ⟨?_, ?_, ?_⟩
    · unfold save_page
      simp only [url_exists] at hex2
      simp [hex2]
    · unfold save_page
      simp only [url_exists] at hex2
      simp [hex2]
    · rw [List.filter_append]
      have h1 : store.filter (fun row => row.url == r.url) = [] := by
        rw [List.filter_eq_nil_iff]
        intro row hrow
        simp only [beq_iff_eq]
        intro hcontra
        have : url_exists store r.url = true := by
          simp only [url_exists, List.any_eq_true, decide_eq_true_eq]
          exact ⟨row, hrow, hcontra⟩
        rw [this] at hex; cases hex
      rw [h1]
      simp
  · have h := crawlLoop_inv env filter maxd maxdl
      (fun st => ∃ new, st.store = init ++ new ∧
        (∀ rr ∈ new, url_exists init rr.url = false) ∧
        st.savedCount = new.length)
      (fun item qrest st out _ hP hout =>
        crawlStep_store_inv env filter maxd maxdl item qrest st out init hout hP)
      fuel
      { q := [⟨normalize_url start, 0, none⟩], seen := [], savedCount := 0,
        store := init, fetched := [], dequeued := [],
        enqueuedLog := [⟨normalize_url start, 0, none⟩] }
      ⟨[], by simp, by simp, rfl⟩
    rcases h with ⟨new, hst, hfresh, _⟩
    exact ⟨new, hst, hfresh⟩

/-- C2 witness: a second save of an already-saved url is a no-op that
reports no insertion and leaves the first record's fields unchanged. -/
theorem claim_C2_witness :
    (save_page (save_page [] c2rec1).2 c2rec2).1 = false ∧
    (save_page (save_page [] c2rec1).2 c2rec2).2 = (save_page [] c2rec1).2 ∧
    ((save_page [] c2rec1).2).filter (fun row => row.url == c2rec1.url) =
      [c2rec1] :=
  (claim_C2_idempotent_persistence [] c2rec1 c2rec2 dupEnv
    (defaultSaveFilter dupEnv) "http://a" 1 none [] 5).2.2.2.1
    (by decide) (by decide)

/-- C3: with a positive quota n, a run persists at most n new records, the
count of persisted records is exactly the number of rows actually inserted,
and a run that stops for quota has persisted exactly n. -/
theorem claim_C3_quota (env : Env) (filter : SaveFilter) (start : String)
    (maxd n : Nat) (init : Store) (fuel : Nat) (hn : 1 ≤ n) :
    ∃ new, (crawl env filter start maxd (some n) init fuel).1.store =
        init ++ new ∧
      (crawl env filter start maxd (some n) init fuel).1.savedCount =
        new.length ∧
      new.length ≤ n ∧
      ((crawl env filter start maxd (some n) init fuel).2 = .quota →
        new.length = n) := by
  have hstore := crawlLoop_inv env filter maxd (some n)
    (fun st => ∃ new, st.store = init ++ new ∧
      (∀ rr ∈ new, url_exists init rr.url = false) ∧
      st.savedCount = new.length)
    (fun item qrest st out _ hP hout =>
      crawlStep_store_inv env filter maxd (some n) item qrest st out init hout hP)
    fuel
    { q := [⟨normalize_url start, 0, none⟩], seen := [], savedCount := 0,
      store := init, fetched := [], dequeued := [],
      enqueuedLog := [⟨normalize_url start, 0, none⟩] }
    ⟨[], by simp, by simp, rfl⟩
  have hq := crawlLoop_quota env filter maxd n fuel
    { q := [⟨normalize_url start, 0, none⟩], seen := [], savedCount := 0,
      store := init, fetched := [], dequeued := [],
      enqueuedLog := [⟨normalize_url start, 0, none⟩] }
    (by simpa using hn)
  rcases hstore with ⟨new, hst, _, hcnt⟩
  refine ⟨new, hst, hcnt, ?_, ?_⟩
  · rw [← hcnt]; exact hq.1
  · intro hquota
    rw [← hcnt]; exact hq.2 hquota

/-- C3 witness: with quota 3 and five relevant candidates, the concrete run
persists exactly 3 records, stops for quota, and leaves frontier items
unconsumed. -/
theorem claim_C3_witness :
    (∃ new, (crawl quotaEnv (defaultSaveFilter quotaEnv) "http://a" 1 (some 3)
        [] 50).1.store = [] ++ new ∧
      (crawl quotaEnv (defaultSaveFilter quotaEnv) "http://a" 1 (some 3)
        [] 50).1.savedCount = new.length ∧
      new.length ≤ 3 ∧
      ((crawl quotaEnv (defaultSaveFilter quotaEnv) "http://a" 1 (some 3)
        [] 50).2 = .quota → new.length = 3)) ∧
    (crawl quotaEnv (defaultSaveFilter quotaEnv) "http://a" 1 (some 3)
      [] 50).1.savedCount = 3 ∧
    (crawl quotaEnv (defaultSaveFilter quotaEnv) "http://a" 1 (some 3)
      [] 50).2 = .quota ∧
    (crawl quotaEnv (defaultSaveFilter quotaEnv) "http://a" 1 (some 3)
      [] 50).1.q ≠ [] :=
  ⟨claim_C3_quota quotaEnv (defaultSaveFilter quotaEnv) "http://a" 1 3 [] 50
    (by decide), by decide, by decide, by decide⟩



theorem processFetch_failure (env : Env) (maxd d : Nat) (url : String)
    (s : Option Int) (hfail : env.fetch url = .failure s) :
    processFetch env maxd d url =
      ⟨s, none, none, none, [], none⟩ := by
  unfold processFetch
  rw [hfail]

theorem shouldFetch2_raising (item : QueueItem) (url : String) :
    shouldFetch2 raisingFilter2 item url = !decide (0 < item.depth) := by
  unfold shouldFetch2 raisingFilter2
  by_cases h : 0 < item.depth <;> simp [h]

theorem crawlStep_raising_store (env : Env) (maxd : Nat) (maxdl : Option Nat)
    (item : QueueItem) (qrest : List QueueItem) (st : CrawlState)
    (out : StepOut) (init : Store)
    (hout : crawlStep env raisingFilter maxd maxdl item qrest st = out)
    (h : st.store = init) : out.state.store = init := by
  simp only [crawlStep] at hout
  split at hout
  · subst hout; exact h
  · split at hout
    · subst hout; exact h
    · split at hout <;> subst hout
      · rcases savePhase_cases maxdl _ _ _ with ⟨hs, _, _⟩ | ⟨hk, _, _, _, _⟩
        · rw [StepOut.state, hs]; exact h
        · rw [keepDecision_raising] at hk; cases hk
      · rw [StepOut.state]
        rcases enqueuePhase_spec maxd item.depth _ _ with
          ⟨cs, _, _, _, hstore', _, _, _, _⟩
        rw [hstore']
        rcases savePhase_cases maxdl _ _ _ with ⟨hs, _, _⟩ | ⟨hk, _, _, _, _⟩
        · rw [hs]; exact h
        · rw [keepDecision_raising] at hk; cases hk

theorem crawl2Step_raising_store (env : Env) (maxd : Nat) (maxdl : Option Nat)
    (item : QueueItem) (qrest : List QueueItem) (st : CrawlState)
    (out : StepOut) (init : Store)
    (hout : crawl2Step env raisingFilter2 maxd maxdl item qrest st = out)
    (h : st.store = init) : out.state.store = init := by
  simp only [crawl2Step] at hout
  split at hout
  · subst hout; exact h
  · split at hout
    · subst hout; exact h
    · split at hout
      · subst hout; exact h
      · rename_i hsf
        have hdepth : item.depth = 0 := by
          rw [shouldFetch2_raising] at hsf
          simpa using hsf
        split at hout <;> subst hout
        · rcases savePhase_cases maxdl _ _ _ with ⟨hs, _, _⟩ | ⟨hk, _, _, _, _⟩
          · rw [StepOut.state, hs]; exact h
          · rw [hdepth] at hk; cases hk
        · rw [StepOut.state]
          rcases enqueuePhase_spec maxd item.depth _ _ with
            ⟨cs, _, _, _, hstore', _, _, _, _⟩
          rw [hstore']
          rcases savePhase_cases maxdl _ _ _ with ⟨hs, _, _⟩ | ⟨hk, _, _, _, _⟩
          · rw [hs]; exact h
          · rw [hdepth] at hk; cases hk



theorem crawl2Step_raising_fetch (env : Env) (maxd : Nat) (maxdl : Option Nat)
    (item : QueueItem) (qrest : List QueueItem) (st : CrawlState)
    (out : StepOut) (hq : st.q = item :: qrest)
    (hout : crawl2Step env raisingFilter2 maxd maxdl item qrest st = out)
    (h : st.fetched.length +
      (st.q.filter (fun it => decide (it.depth = 0))).length ≤ 1) :
    out.state.fetched.length +
      (out.state.q.filter (fun it => decide (it.depth = 0))).length ≤ 1 := by
  rw [hq] at h
  have hmono : (qrest.filter (fun it => decide (it.depth = 0))).length ≤
      ((item :: qrest).filter (fun it => decide (it.depth = 0))).length := by
    rw [List.filter_cons]
    split
    · simp
    · exact le_rfl
  simp only [crawl2Step] at hout
  split at hout
  · subst hout
    dsimp only [StepOut.state]
    omega
  · split at hout
    · subst hout
      dsimp only [StepOut.state]
      omega
    · split at hout
      · subst hout
        dsimp only [StepOut.state]
        omega
      · rename_i hsf
        have hdepth : item.depth = 0 := by
          rw [shouldFetch2_raising] at hsf
          simpa using hsf
        rw [List.filter_cons] at h
        rw [if_pos (by simp [hdepth] : decide (item.depth = 0) = true),
          List.length_cons] at h
        have hfet0 : st.fetched.length = 0 := by omega
        have hqrest0 :
            (qrest.filter (fun it => decide (it.depth = 0))).length = 0 := by
          omega
        split at hout <;> subst hout
        · rw [StepOut.state, savePhase_fetched, savePhase_q]
          dsimp only
          rw [List.length_append, hfet0, hqrest0]
          simp
        · rw [StepOut.state]
          rcases enqueuePhase_spec maxd item.depth _ _ with
            ⟨cs, hq', _, _, _, _, hfet', _, hcs⟩
          rw [hq', hfet', savePhase_fetched, savePhase_q]
          have hcs0 : (cs.filter (fun it => decide (it.depth = 0))).length = 0 := by
            rcases hcs with rfl | ⟨_, rfl⟩
            · simp
            · rw [List.length_eq_zero]
              rw [List.filter_eq_nil_iff]
              intro it hit
              have := (enqueueChildren_mem _ _ _ it hit).1
              simp [this]
          rw [List.filter_append, List.length_append, List.length_append,
            hcs0, hfet0, hqrest0]
          simp

/-- C5, corrected: a raising relevance filter always yields a false verdict,
so neither crawl variant ever persists anything under it, and the package
variant additionally fetches at most the root item; in the flat variant,
however, links of the failing item are still enqueued (see the
counterexample). -/
theorem claim_C5_fail_closed (env : Env) (start : String) (maxd : Nat)
    (maxdl : Option Nat) (init : Store) (fuel : Nat) :
    (crawl env raisingFilter start maxd maxdl init fuel).1.store = init ∧
    (crawl2 env raisingFilter2 start maxd maxdl init fuel).1.store = init ∧
    (crawl2 env raisingFilter2 start maxd maxdl init fuel).1.fetched.length ≤ 1 := by
  refine ⟨?_, ?_, ?_⟩
  · exact crawlLoop_inv env raisingFilter maxd maxdl
      (fun st => st.store = init)
      (fun item qrest st out _ hP hout =>
        crawlStep_raising_store env maxd maxdl item qrest st out init hout hP)
      fuel _ rfl
  · exact crawl2Loop_inv env raisingFilter2 maxd maxdl
      (fun st => st.store = init)
      (fun item qrest st out _ hP hout =>
        crawl2Step_raising_store env maxd maxdl item qrest st out init hout hP)
      fuel _ rfl
  · have h := crawl2Loop_inv env raisingFilter2 maxd maxdl
      (fun st => st.fetched.length +
        (st.q.filter (fun it => decide (it.depth = 0))).length ≤ 1)
      (fun item qrest st out hq hP hout =>
        crawl2Step_raising_fetch env maxd maxdl item qrest st out hq hout hP)
      fuel
      { q := [⟨normalize_url start, 0, none⟩], seen := [], savedCount := 0,
        store := init, fetched := [], dequeued := [],
        enqueuedLog := [⟨normalize_url start, 0, none⟩] }
      (by simp)
    exact Nat.le_trans (Nat.le_add_right _ _) h

/-- C5 counterexample: under the always-raising filter the flat crawler
still enqueues and fetches the links of the item the filter raised on — the
start page's link is fetched although the filter raised on the start page —
while nothing is persisted. -/
theorem claim_C5_counterexample :
    (crawl dupEnv raisingFilter "http://a" 1 none [] 10).1.fetched =
      ["http://a", "http://d"] ∧
    (crawl dupEnv raisingFilter "http://a" 1 none [] 10).1.store = [] ∧
    (crawl dupEnv raisingFilter "http://a" 1 none [] 10).1.q = [] := by
  refine ⟨by decide, by decide, by decide⟩



theorem crawlStep_failed_fetch_aux (env : Env) (filter : SaveFilter)
    (maxd : Nat) (maxdl : Option Nat) (item : QueueItem)
    (qrest : List QueueItem) (st : CrawlState) (out : StepOut) (s : Option Int)
    (hout : crawlStep env filter maxd maxdl item qrest st = out)
    (hseen : st.seen.contains (normalize_url item.url) = false)
    (hex : url_exists st.store (normalize_url item.url) = false)
    (hfail : env.fetch (normalize_url item.url) = .failure s) :
    ∃ st', (out = .next st' ∨ out = .stop st' .quota) ∧
      st'.q = qrest ∧
      st'.fetched = st.fetched ++ [normalize_url item.url] ∧
      (st'.store = st.store ∨
        st'.store = st.store ++
          [⟨normalize_url item.url, item.anchor_text, s, none, none, none,
            item.depth⟩]) := by
  simp only [crawlStep] at hout
  rw [processFetch_failure env maxd item.depth (normalize_url item.url) s
    hfail] at hout
  split at hout
  · rename_i hc
    rw [hseen] at hc
    cases hc
  · split at hout
    · rename_i hc
      rw [hex] at hc
      cases hc
    · dsimp only at hout
      split at hout <;> subst hout
      · refine ⟨_, Or.inr rfl, ?_, ?_, ?_⟩
        · rw [savePhase_q]
        · rw [savePhase_fetched]
        · rcases savePhase_cases maxdl _ _ _ with ⟨hs, _, _⟩ | ⟨_, _, hs, _, _⟩
          · left; rw [hs]
          · right; rw [hs]
      · rw [enqueuePhase_nil]
        refine ⟨_, Or.inl rfl, ?_, ?_, ?_⟩
        · rw [savePhase_q]
        · rw [savePhase_fetched]
        · rcases savePhase_cases maxdl _ _ _ with ⟨hs, _, _⟩ | ⟨_, _, hs, _, _⟩
          · left; rw [hs]
          · right; rw [hs]

/-- C6, corrected: a transport-level fetch failure is non-fatal and yields no
children — the failed item contributes no frontier entries, and processing
continues (the step result is a normal next-state unless the quota break
fires) — but, contrary to the claim, a record MAY still be persisted for the
failed item: the URL-string fallback of `should_save` can accept it, in
which case the stored row carries the best-effort status and absent
content-type, body and title. -/
theorem claim_C6_failed_fetch (env : Env) (filter : SaveFilter) (maxd : Nat)
    (maxdl : Option Nat) (item : QueueItem) (qrest : List QueueItem)
    (st : CrawlState) (s : Option Int)
    (hseen : st.seen.contains (normalize_url item.url) = false)
    (hex : url_exists st.store (normalize_url item.url) = false)
    (hfail : env.fetch (normalize_url item.url) = .failure s) :
    ∃ st', (crawlStep env filter maxd maxdl item qrest st = .next st' ∨
        crawlStep env filter maxd maxdl item qrest st = .stop st' .quota) ∧
      st'.q = qrest ∧
      st'.fetched = st.fetched ++ [normalize_url item.url] ∧
      (st'.store = st.store ∨
        st'.store = st.store ++
          [⟨normalize_url item.url, item.anchor_text, s, none, none, none,
            item.depth⟩]) := by
  rcases crawlStep_failed_fetch_aux env filter maxd maxdl item qrest st _ s
    rfl hseen hex hfail with ⟨st', hdisj, hq, hfet, hstore⟩
  exact ⟨st', by rcases hdisj with h | h <;> [left; right] <;> exact h,
    hq, hfet, hstore⟩

/-- C6 witness: a concrete single-item state whose fetch fails steps to a
normal next state that fetched the URL, yielded no children, and (here)
persisted a fallback record because the URL string looks minutes-like. -/
theorem claim_C6_witness :
    ∃ st', (crawlStep (mkEnv []) (defaultSaveFilter (mkEnv [])) 1 none
        ⟨"http://minutes-2024-1-2.example", 0, none⟩ []
        (oneItemState ⟨"http://minutes-2024-1-2.example", 0, none⟩) =
          .next st' ∨
      crawlStep (mkEnv []) (defaultSaveFilter (mkEnv [])) 1 none
        ⟨"http://minutes-2024-1-2.example", 0, none⟩ []
        (oneItemState ⟨"http://minutes-2024-1-2.example", 0, none⟩) =
          .stop st' .quota) ∧
      st'.q = [] ∧
      st'.fetched = (oneItemState ⟨"http://minutes-2024-1-2.example", 0,
        none⟩).fetched ++ [normalize_url "http://minutes-2024-1-2.example"] ∧
      (st'.store = (oneItemState ⟨"http://minutes-2024-1-2.example", 0,
          none⟩).store ∨
        st'.store = (oneItemState ⟨"http://minutes-2024-1-2.example", 0,
          none⟩).store ++
          [⟨normalize_url "http://minutes-2024-1-2.example", none, none, none,
            none, none, 0⟩]) :=
  claim_C6_failed_fetch (mkEnv []) (defaultSaveFilter (mkEnv [])) 1 none
    ⟨"http://minutes-2024-1-2.example", 0, none⟩ []
    (oneItemState ⟨"http://minutes-2024-1-2.example", 0, none⟩) none
    (by decide) (by decide) rfl

/-- C6 counterexample: in a concrete run the fetch of
`http://minutes-2024-1-2.example` fails at the transport level, the loop
continues (the sibling page is still fetched), the failed item yields no
children — yet a record IS persisted for it via the URL-string fallback,
contradicting the claim that a failed item yields no save. -/
theorem claim_C6_counterexample :
    (crawl failUrlEnv (defaultSaveFilter failUrlEnv) "http://a" 1 none
      [] 10).1.store =
      [⟨"http://minutes-2024-1-2.example", some "x", none, none, none, none,
        1⟩] ∧
    (crawl failUrlEnv (defaultSaveFilter failUrlEnv) "http://a" 1 none
      [] 10).1.fetched =
      ["http://a", "http://minutes-2024-1-2.example", "http://b"] ∧
    failUrlEnv.fetch "http://minutes-2024-1-2.example" = .failure none := by
  refine ⟨by decide, by decide, rfl⟩



theorem crawlStep_http_inv (env : Env) (filter : SaveFilter) (maxd : Nat)
    (maxdl : Option Nat) (item : QueueItem) (qrest : List QueueItem)
    (st : CrawlState) (out : StepOut)
    (hout : crawlStep env filter maxd maxdl item qrest st = out)
    (h : ∀ it ∈ st.enqueuedLog, 0 < it.depth → is_http_url it.url = true) :
    ∀ it ∈ out.state.enqueuedLog, 0 < it.depth → is_http_url it.url = true := by
  simp only [crawlStep] at hout
  split at hout
  · subst hout; exact h
  · split at hout
    · subst hout; exact h
    · split at hout <;> subst hout
      · rw [StepOut.state, savePhase_log]; exact h
      · rw [StepOut.state]
        rcases enqueuePhase_spec maxd item.depth _ _ with
          ⟨cs, _, hlog', _, _, _, _, _, hcs⟩
        rw [hlog', savePhase_log]
        intro it hit hd
        rcases List.mem_append.mp hit with hit | hit
        · exact h it hit hd
        · rcases hcs with rfl | ⟨_, rfl⟩
          · cases hit
          · rcases (enqueueChildren_mem _ _ _ it hit).2.2.2 with ⟨l, hl, hurl⟩
            rw [hurl]
            exact processFetch_links env maxd item.depth _ l hl

/-- C7, corrected: every candidate produced by link extraction whose
normalized form lacks an http or https scheme is silently dropped — the
extractor emits only http(s) URLs, so every non-root frontier item ever
enqueued carries an http(s) URL; the start URL, however, is enqueued and
fetched without any scheme check (see the counterexample). -/
theorem claim_C7_scheme_filtering :
    (∀ (env : Env) (base html : String) p, p ∈ extract_links env base html →
      is_http_url p.1 = true) ∧
    (∀ (env : Env) (filter : SaveFilter) (start : String) (maxd : Nat)
      (maxdl : Option Nat) (init : Store) (fuel : Nat) it,
      it ∈ (crawl env filter start maxd maxdl init fuel).1.enqueuedLog →
      0 < it.depth → is_http_url it.url = true) := by
  constructor
  · intro env base html p hp
    exact extract_links_http env base html p hp
  · intro env filter start maxd maxdl init fuel it hit hd
    have h := crawlLoop_inv env filter maxd maxdl
      (fun st => ∀ it ∈ st.enqueuedLog, 0 < it.depth →
        is_http_url it.url = true)
      (fun item qrest st out _ hP hout =>
        crawlStep_http_inv env filter maxd maxdl item qrest st out hout hP)
      fuel
      { q := [⟨normalize_url start, 0, none⟩], seen := [], savedCount := 0,
        store := init, fetched := [], dequeued := [],
        enqueuedLog := [⟨normalize_url start, 0, none⟩] }
      (by intro it hit hd; simp at hit; rw [hit] at hd; cases hd)
    exact h it hit hd

/-- C7 witness: the child enqueued in the duplicate-link run has an http
scheme. -/
theorem claim_C7_witness : is_http_url "http://d" = true :=
  claim_C7_scheme_filtering.2 dupEnv (defaultSaveFilter dupEnv) "http://a" 1
    none [] 10 ⟨"http://d", 1, some "x"⟩ (by decide) (by decide)

/-- C7 counterexample: a start URL with scheme `ftp` is enqueued onto the
frontier and fetched, so the claim's "including the start URL" fails — only
link-extracted candidates are scheme-filtered. -/
theorem claim_C7_counterexample :
    (crawl (mkEnv []) (defaultSaveFilter (mkEnv [])) "ftp://x" 0 none
      [] 5).1.fetched = ["ftp://x"] ∧
    (⟨"ftp://x", 0, none⟩ : QueueItem) ∈
      (crawl (mkEnv []) (defaultSaveFilter (mkEnv [])) "ftp://x" 0 none
        [] 5).1.enqueuedLog ∧
    is_http_url "ftp://x" = false := by
  refine ⟨by decide, by decide, by decide⟩



/-- C8: in body-text mode the rule-based filter accepts exactly the texts
that contain a curated keyword AND at least one structural corroborating
signal — a keyword with no signal is rejected, no keyword is rejected
regardless of signals — and, for HTML content with a nonempty text
rendering, `should_save` is exactly this rule-based verdict on the rendered
body text. -/
theorem claim_C8_keyword_and_signal (text url : String) (env : Env)
    (c ht : String) (pb : Option String) :
    (rule_based_is_minutes_like text url = true ↔
      (hasMinutesKeyword (lowerStr ⟨text.data.take 200000⟩) = true ∧
       hasStructuralSignal (lowerStr ⟨text.data.take 200000⟩) = true)) ∧
    (ctIsHtml (some c) = true → ht ≠ "" → env.htmlToText ht ≠ "" →
      should_save env (some c) url (some ht) pb =
        rule_based_is_minutes_like (env.htmlToText ht) url) := by
  constructor
  · unfold rule_based_is_minutes_like hasMinutesKeyword hasStructuralSignal
    by_cases hk : ((MINUTES_KEYWORDS.map lowerStr).any
        (fun k => containsSub (lowerStr ⟨text.data.take 200000⟩) k)) = true <;>
      by_cases hd : containsDateSignal (lowerStr ⟨text.data.take 200000⟩) = true <;>
      by_cases htm : containsTimeSignal (lowerStr ⟨text.data.take 200000⟩) = true <;>
      by_cases ha : containsAgendaSignal (lowerStr ⟨text.data.take 200000⟩) = true <;>
      simp [hk, hd, htm, ha]
  · intro hct hht hrend
    simp only [ctIsHtml] at hct
    simp only [should_save]
    have h1 : ("text/html".data.isPrefixOf (lowerStr c).data &&
        optTruthy (some ht)) = true := by
      rw [hct]
      simpa [optTruthy] using hht
    rw [if_pos h1]
    simp only [Option.getD]
    rw [if_neg hrend, llm_none]
    cases hrb : rule_based_is_minutes_like (env.htmlToText ht) url <;>
      simp [hrb]



/-- C8 witness: a text with the keyword "minutes" and a date pattern is
accepted, so by the equivalence it has a keyword and a structural signal. -/
theorem claim_C8_witness :
    hasMinutesKeyword (lowerStr ⟨"minutes 2024-01-02".data.take 200000⟩) =
      true ∧
    hasStructuralSignal (lowerStr ⟨"minutes 2024-01-02".data.take 200000⟩) =
      true :=
  (claim_C8_keyword_and_signal "minutes 2024-01-02" "u" dupEnv "text/html"
    "x" none).1.mp (by decide)

/-- C9, corrected: dequeue-time dedup — an item whose normalized URL is
already in the in-run visited set (that is, already dequeued and processed)
is skipped outright, without fetching or saving; and enqueue-time dedup
filters only against that visited set: every child actually enqueued has a
URL not in the visited set.  A URL that is merely pending on the frontier is
NOT filtered (see the counterexample). -/
theorem claim_C9_dedup_via_visited_set :
    (∀ (env : Env) (filter : SaveFilter) (maxd : Nat) (maxdl : Option Nat)
      (item : QueueItem) (qrest : List QueueItem) (st : CrawlState),
      st.seen.contains (normalize_url item.url) = true →
      crawlStep env filter maxd maxdl item qrest st =
        .next { st with q := qrest, dequeued := st.dequeued ++ [item] }) ∧
    (∀ (env : Env) (filter : SaveFilter) (maxd : Nat) (maxdl : Option Nat)
      (item : QueueItem) (qrest : List QueueItem) (st : CrawlState)
      (out : StepOut), crawlStep env filter maxd maxdl item qrest st = out →
      ∃ cs, out.state.q = qrest ++ cs ∧
        ∀ it ∈ cs, out.state.seen.contains it.url = false) := by
  constructor
  · intro env filter maxd maxdl item qrest st hseen
    simp only [crawlStep]
    rw [hseen]
    simp
  · intro env filter maxd maxdl item qrest st out hout
    simp only [crawlStep] at hout
    split at hout
    · subst hout
      exact ⟨[], by rw [StepOut.state]; simp, by intro it hit; cases hit⟩
    · split at hout
      · subst hout
        exact ⟨[], by rw [StepOut.state]; simp, by intro it hit; cases hit⟩
      · split at hout <;> subst hout
        · refine ⟨[], ?_, by intro it hit; cases hit⟩
          rw [StepOut.state, savePhase_q]
          simp
        · rw [StepOut.state]
          rcases enqueuePhase_spec maxd item.depth _ _ with
            ⟨cs, hq', _, hseen', _, _, _, _, hcs⟩
          refine ⟨cs, ?_, ?_⟩
          · rw [hq', savePhase_q]
          · intro it hit
            rw [hseen', savePhase_seen]
            rcases hcs with rfl | ⟨_, rfl⟩
            · cases hit
            · exact (enqueueChildren_mem _ _ _ it hit).2.1

/-- C9 witness: a dequeued item whose URL is already in the visited set is
dropped with no fetch and no save. -/
theorem claim_C9_witness :
    crawlStep (mkEnv []) (defaultSaveFilter (mkEnv [])) 1 none
      ⟨"http://s", 1, none⟩ [] (seenState ⟨"http://s", 1, none⟩ ["http://s"]) =
      .next { seenState ⟨"http://s", 1, none⟩ ["http://s"] with
        q := [],
        dequeued := (seenState ⟨"http://s", 1, none⟩ ["http://s"]).dequeued ++
          [⟨"http://s", 1, none⟩] } :=
  claim_C9_dedup_via_visited_set.1 (mkEnv []) (defaultSaveFilter (mkEnv []))
    1 none ⟨"http://s", 1, none⟩ [] (seenState ⟨"http://s", 1, none⟩
    ["http://s"]) (by decide)

/-- C9 counterexample: after one iteration of the duplicate-link run the
frontier holds TWO items for the still-pending URL `http://d` — the second
candidate was enqueued although the first was already pending, because the
enqueue check consults only the visited set of dequeued URLs. -/
theorem claim_C9_counterexample :
    (crawl dupEnv (defaultSaveFilter dupEnv) "http://a" 1 none [] 1).1.q =
      [⟨"http://d", 1, some "x"⟩, ⟨"http://d", 1, some "y"⟩] ∧
    (crawl dupEnv (defaultSaveFilter dupEnv) "http://a" 1 none [] 1).2 =
      .fuelOut ∧
    (crawl dupEnv (defaultSaveFilter dupEnv) "http://a" 1 none [] 10).1.fetched =
      ["http://a", "http://d"] := by
  refine ⟨by decide, by decide, by decide⟩



theorem crawlStep_anchor_inv (env : Env) (filter : SaveFilter) (maxd : Nat)
    (maxdl : Option Nat) (item : QueueItem) (qrest : List QueueItem)
    (st : CrawlState) (out : StepOut) (init : Store)
    (hq : st.q = item :: qrest)
    (hout : crawlStep env filter maxd maxdl item qrest st = out)
    (h : AnchorInv init st) : AnchorInv init out.state := by
  obtain ⟨hstore, hdeq, hanch⟩ := h
  have hqrest : ∀ it ∈ qrest, it.anchor_text ≠ some "" := by
    intro it hit; exact hanch it (by rw [hq]; exact List.mem_cons_of_mem _ hit)
  have hitem : item.anchor_text ≠ some "" :=
    hanch item (by rw [hq]; exact List.mem_cons_self _ _)
  have hstoreExt : ∀ r ∈ st.store, r ∈ init ∨
      ((∃ it, (st.dequeued ++ [item]).find?
          (fun i => normalize_url i.url == r.url) = some it ∧
        r.referrer_anchor_text = it.anchor_text ∧ r.depth = it.depth) ∧
       r.referrer_anchor_text ≠ some "") := by
    intro r hr
    rcases hstore r hr with hin | ⟨⟨it0, hfind, ha, hd⟩, hne⟩
    · exact Or.inl hin
    · exact Or.inr ⟨⟨it0, find?_append_some _ _ _ _ hfind, ha, hd⟩, hne⟩
  simp only [crawlStep] at hout
  split at hout
  · rename_i hc
    subst hout
    refine ⟨hstoreExt, ?_, hqrest⟩
    intro it hit
    rcases List.mem_append.mp hit with hit | hit
    · exact hdeq it hit
    · simp only [List.mem_singleton] at hit
      subst hit
      exact hc
  · rename_i hc
    split at hout
    · subst hout
      refine ⟨hstoreExt, ?_, hqrest⟩
      intro it hit
      rcases List.mem_append.mp hit with hit | hit
      · rw [contains_iff]
        exact List.mem_cons_of_mem _ ((contains_iff _ _).mp (hdeq it hit))
      · simp only [List.mem_singleton] at hit
        subst hit
        rw [contains_iff]
        exact List.mem_cons_self _ _
    · have hfindnone : st.dequeued.find?
          (fun i => normalize_url i.url == normalize_url item.url) = none := by
        rw [List.find?_eq_none]
        intro x hx hpred
        apply hc
        have hxu : normalize_url x.url = normalize_url item.url := by
          simpa using hpred
        rw [← hxu]
        exact hdeq x hx
      have hfinditem : (st.dequeued ++ [item]).find?
          (fun i => normalize_url i.url == normalize_url item.url) =
          some item := by
        rw [find?_append_none _ _ _ hfindnone]
        simp [List.find?]
      have hdeqExt : ∀ it ∈ st.dequeued ++ [item],
          (normalize_url item.url :: st.seen).contains
            (normalize_url it.url) = true := by
        intro it hit
        rcases List.mem_append.mp hit with hit | hit
        · rw [contains_iff]
          exact List.mem_cons_of_mem _ ((contains_iff _ _).mp (hdeq it hit))
        · simp only [List.mem_singleton] at hit
          subst hit
          rw [contains_iff]
          exact List.mem_cons_self _ _
      split at hout <;> subst hout
      · refine ⟨?_, ?_, ?_⟩
        · intro r hr
          rw [StepOut.state] at hr ⊢
          rw [savePhase_dequeued]
          rcases savePhase_cases maxdl _ _ _ with ⟨hs, _, _⟩ | ⟨_, _, hs, _, _⟩
          · rw [hs] at hr
            exact hstoreExt r hr
          · rw [hs] at hr
            rcases List.mem_append.mp hr with hr | hr
            · exact hstoreExt r hr
            · simp only [List.mem_singleton] at hr
              subst hr
              exact Or.inr ⟨⟨item, hfinditem, rfl, rfl⟩, hitem⟩
        · intro it hit
          rw [StepOut.state, savePhase_dequeued] at hit
          rw [StepOut.state, savePhase_seen]
          exact hdeqExt it hit
        · intro it hit
          rw [StepOut.state, savePhase_q] at hit
          exact hqrest it hit
      · rw [StepOut.state]
        rcases enqueuePhase_spec maxd item.depth _ _ with
          ⟨cs, hq', _, hseen', hstore', _, _, hdeq', hcs⟩
        refine ⟨?_, ?_, ?_⟩
        · intro r hr
          rw [hstore'] at hr
          rw [hdeq', savePhase_dequeued]
          rcases savePhase_cases maxdl _ _ _ with ⟨hs, _, _⟩ | ⟨_, _, hs, _, _⟩
          · rw [hs] at hr
            exact hstoreExt r hr
          · rw [hs] at hr
            rcases List.mem_append.mp hr with hr | hr
            · exact hstoreExt r hr
            · simp only [List.mem_singleton] at hr
              subst hr
              exact Or.inr ⟨⟨item, hfinditem, rfl, rfl⟩, hitem⟩
        · intro it hit
          rw [hdeq', savePhase_dequeued] at hit
          rw [hseen', savePhase_seen]
          exact hdeqExt it hit
        · intro it hit
          rw [hq', savePhase_q] at hit
          rcases List.mem_append.mp hit with hit | hit
          · exact hqrest it hit
          · rcases hcs with rfl | ⟨_, rfl⟩
            · cases hit
            · exact (enqueueChildren_mem _ _ _ it hit).2.2.1



/-- C10: every record a run adds to the store carries the anchor text (and
depth) of the FIRST frontier item dequeued for its URL — anchor texts of
later duplicate items never reach the store, because a URL already in the
visited set is skipped before any save — and an empty visible anchor text is
stored as the absent value, never as the empty string. -/
theorem claim_C10_first_anchor_wins (env : Env) (filter : SaveFilter)
    (start : String) (maxd : Nat) (maxdl : Option Nat) (init : Store)
    (fuel : Nat) (r : Record)
    (hr : r ∈ (crawl env filter start maxd maxdl init fuel).1.store)
    (hfresh : url_exists init r.url = false) :
    (∃ it, (crawl env filter start maxd maxdl init fuel).1.dequeued.find?
        (fun i => normalize_url i.url == r.url) = some it ∧
      r.referrer_anchor_text = it.anchor_text ∧ r.depth = it.depth) ∧
    r.referrer_anchor_text ≠ some "" := by
  have hInit : AnchorInv init
      { q := [⟨normalize_url start, 0, none⟩], seen := [], savedCount := 0,
        store := init, fetched := [], dequeued := [],
        enqueuedLog := [⟨normalize_url start, 0, none⟩] } := by
    refine ⟨fun r hr => Or.inl hr, ?_, ?_⟩
    · intro it hit; cases hit
    · intro it hit; simp at hit; rw [hit]; simp
  have h := crawlLoop_inv env filter maxd maxdl (AnchorInv init)
    (fun item qrest st out hq hP hout =>
      crawlStep_anchor_inv env filter maxd maxdl item qrest st out init hq
        hout hP)
    fuel
    { q := [⟨normalize_url start, 0, none⟩], seen := [], savedCount := 0,
      store := init, fetched := [], dequeued := [],
      enqueuedLog := [⟨normalize_url start, 0, none⟩] } hInit
  rcases h.1 r hr with hin | hgood
  · rw [mem_url_exists init r hin] at hfresh
    cases hfresh
  · exact hgood

/-- C10 witness: in the quota run, the record stored for `http://m1` carries
the anchor text of the first dequeued frontier item for that URL. -/
theorem claim_C10_witness :
    (∃ it, (crawl quotaEnv (defaultSaveFilter quotaEnv) "http://a" 1 (some 3)
        [] 50).1.dequeued.find?
        (fun i => normalize_url i.url ==
          (⟨"http://m1", some "minutes 1", some 200, some "text/html",
            some "http://m1", none, 1⟩ : Record).url) = some it ∧
      (⟨"http://m1", some "minutes 1", some 200, some "text/html",
        some "http://m1", none, 1⟩ : Record).referrer_anchor_text =
        it.anchor_text ∧
      (⟨"http://m1", some "minutes 1", some 200, some "text/html",
        some "http://m1", none, 1⟩ : Record).depth = it.depth) ∧
    (⟨"http://m1", some "minutes 1", some 200, some "text/html",
      some "http://m1", none, 1⟩ : Record).referrer_anchor_text ≠ some "" :=
  claim_C10_first_anchor_wins quotaEnv (defaultSaveFilter quotaEnv)
    "http://a" 1 (some 3) [] 50
    ⟨"http://m1", some "minutes 1", some 200, some "text/html",
      some "http://m1", none, 1⟩ (by decide) (by decide)

end Crawler
